import Mathlib

/-!
Shallow embedding of the GithubAPI activity program (src/main.py): event
normalization (GithubEvent), sorting strategies, windowed aggregation, and
the two tier cache (in process map plus durable file) with TTL checks and
the atomic durable write protocol.  Python values that can appear in a
JSON payload are modeled by `PyVal`; places where the model abstracts a
Python library routine (ISO timestamp parsing, the exact string forms
accepted by int()) are noted in the corresponding doc comments.
-/

namespace GithubActivity

/-- Python values occurring in JSON event payloads: null, bool, int, str,
list, dict.  Float payload values do not occur in the claims under study
and are not modeled. -/
inductive PyVal where
  | none : PyVal
  | bool : Bool → PyVal
  | int : Int → PyVal
  | str : String → PyVal
  | list : List PyVal → PyVal
  | dict : List (String × PyVal) → PyVal

/-- Fuel indexed boolean equality on `PyVal`.  It is sound for every fuel
(`pyBeqF_sound`) and complete once the fuel reaches the size of the left
value (`pyBeqF_complete`), so `pyBeqF n a b = true` for a suitable `n`
says exactly `a = b`.  The fuel makes the function structurally recursive
and hence evaluable inside proofs. -/
def pyBeqF : Nat → PyVal → PyVal → Bool
  | 0, _, _ => false
  | n+1, a, b =>
    match a, b with
    | .none, .none => true
    | .bool x, .bool y => x == y
    | .int x, .int y => x == y
    | .str x, .str y => x == y
    | .list xs, .list ys =>
        xs.length == ys.length && (List.zip xs ys).all (fun p => pyBeqF n p.1 p.2)
    | .dict xs, .dict ys =>
        xs.length == ys.length &&
          (List.zip xs ys).all (fun p => p.1.1 == p.2.1 && pyBeqF n p.1.2 p.2.2)
    | _, _ => false

/-- Models the Python equality test `v == "lit"` between an arbitrary
payload value and a string literal, as in `self.type == EventType.PUSH.value`:
true exactly for the equal string. -/
def pyEqStr (v : PyVal) (lit : String) : Bool :=
  match v with
  | .str s => s == lit
  | _ => false

/-- A raw event payload: the JSON object handed to GithubEvent.__init__,
as a key ordered association list (Python dicts from json.loads have
string keys and preserve insertion order). -/
abbrev RawEvent := List (String × PyVal)

/-- Python truthiness for the modeled values. -/
def PyVal.truthy : PyVal → Bool
  | .none => false
  | .bool b => b
  | .int n => n != 0
  | .str s => s != ""
  | .list xs => !xs.isEmpty
  | .dict kvs => !kvs.isEmpty

/-- Models `v.get(key)` (one argument dict get, default None): succeeds
only on dicts, raising AttributeError (modeled as `Except.error`) on every
other value, exactly as in Python. -/
def dictGet : PyVal → String → Except Unit PyVal
  | .dict kvs, key => Except.ok ((kvs.lookup key).getD .none)
  | _, _ => Except.error ()

/-- Extracts the key value pairs of a dict, failing on any other value
(models calling a dict method such as .get on a non dict). -/
def asDict : PyVal → Except Unit (List (String × PyVal))
  | .dict kvs => Except.ok kvs
  | _ => Except.error ()

/-- Value of a decimal digit character. -/
def digitVal (c : Char) : Option Nat :=
  if c.isDigit then some (c.toNat - 48) else Option.none

/-- Reads a nonempty all digit character list as a natural number. -/
def digitsToNat : List Char → Option Nat
  | [] => Option.none
  | cs =>
    cs.foldl
      (fun acc c =>
        match acc, digitVal c with
        | some a, some d => some (10 * a + d)
        | _, _ => Option.none)
      (some 0)

/-- Models int() on a string: an optional sign followed by decimal
digits (the surrounding whitespace and embedded underscores int() also
tolerates are not modeled; no claim depends on those forms). -/
def pyStrToInt (cs : List Char) : Option Int :=
  match cs with
  | '-' :: rest => (digitsToNat rest).map (fun n => -(n : Int))
  | '+' :: rest => (digitsToNat rest).map (fun n => (n : Int))
  | _ => (digitsToNat cs).map (fun n => (n : Int))

/-- Models Python int(v) on the modeled values, returning `Option.none`
where Python raises ValueError or TypeError: ints are themselves, bools
are 0 or 1, strings parse as signed decimal integer literals, and None,
lists and dicts fail. -/
def pyIntOf : PyVal → Option Int
  | .int n => some n
  | .bool b => some (if b then 1 else 0)
  | .str s => pyStrToInt s.toList
  | _ => Option.none

/-- Comparison class of a value for Python order comparisons: ints and
bools compare numerically (bool is an int subclass), strings compare with
strings.  Values outside these classes are not given an order here. -/
def cmpClass : PyVal → Option (Sum Int String)
  | .int n => some (Sum.inl n)
  | .bool b => some (Sum.inl (if b then 1 else 0))
  | .str s => some (Sum.inr s)
  | _ => Option.none

/-- Models the Python strict comparison a < b on the modeled values:
defined within the numeric class and within strings, a TypeError
(`Except.error`) otherwise — in particular None never compares.  (List
with list comparison, which Python defines elementwise, does not occur
among the sort keys of this program and is not modeled.) -/
def pyLt (a b : PyVal) : Except Unit Bool :=
  match cmpClass a, cmpClass b with
  | some (Sum.inl x), some (Sum.inl y) => Except.ok (decide (x < y))
  | some (Sum.inr s), some (Sum.inr t) => Except.ok (decide (s < t))
  | _, _ => Except.error ()

/-! ## Instants

Python datetime values are embedded as integers through the order
faithful encoding below of the naive field tuple
(year, month, day, hour, minute, second): chronological comparison of
datetimes is exactly lexicographic comparison of those tuples, which the
encoding preserves.  `datetimeMin` is the image of datetime.min, the
sentinel the program stores for missing or unparsable timestamps. -/

/-- Order faithful integer encoding of a naive datetime field tuple. -/
def encodeDT (y mo d h mi s : Nat) : Int :=
  ((((((y : Int) * 13 + mo) * 32 + d) * 24 + h) * 60 + mi) * 60 + s)

/-- The sentinel instant: the encoding of datetime.min
(0001-01-01 00:00:00). -/
def datetimeMin : Int := encodeDT 1 1 1 0 0 0

/-- Reads exactly two decimal digits. -/
def read2 : List Char → Option (Nat × List Char)
  | c1 :: c2 :: rest =>
    match digitVal c1, digitVal c2 with
    | some a, some b => some (10 * a + b, rest)
    | _, _ => Option.none
  | _ => Option.none

/-- Reads exactly four decimal digits. -/
def read4 (cs : List Char) : Option (Nat × List Char) :=
  match read2 cs with
  | some (a, rest) =>
    match read2 rest with
    | some (b, rest2) => some (100 * a + b, rest2)
    | Option.none => Option.none
  | Option.none => Option.none

/-- Consumes one expected character. -/
def expectChar (c : Char) : List Char → Option (List Char)
  | d :: rest => if d = c then some rest else Option.none
  | [] => Option.none

/-- Succeeds exactly when the condition holds. -/
def ensureB (b : Bool) : Option Unit :=
  if b then some () else Option.none

/-- Validates an optional trailing UTC offset (sign, HH:MM).  The offset
value itself is discarded because GithubEvent.__init__ strips tzinfo from
the parsed datetime, keeping the naive fields. -/
def readOffset : List Char → Bool
  | [] => true
  | sign :: rest =>
    if sign = '+' || sign = '-' then
      match read2 rest with
      | some (hh, r1) =>
        match expectChar ':' r1 with
        | some r2 =>
          match read2 r2 with
          | some (mm, r3) => r3.isEmpty && decide (hh < 24) && decide (mm < 60)
          | Option.none => false
        | Option.none => false
      | Option.none => false
    else false

/-- Models datetime.fromisoformat on the forms this program feeds it
(after the Z to +00:00 replacement): YYYY-MM-DD, optionally followed by
THH:MM:SS and an optional +HH:MM offset.  Field ranges are validated
(month 1..12, day 1..31, hour, minute, second in range); the exact per
month day count check of the Python calendar is abstracted.  The result
is the order faithful encoding of the naive fields, the offset being
dropped as __init__ strips tzinfo. -/
def parseISO (cs0 : List Char) : Option Int := do
  let (y, r1) ← read4 cs0
  let r2 ← expectChar '-' r1
  let (mo, r3) ← read2 r2
  let r4 ← expectChar '-' r3
  let (d, r5) ← read2 r4
  let _ ← ensureB (decide (1 ≤ y) && decide (1 ≤ mo) && decide (mo ≤ 12)
      && decide (1 ≤ d) && decide (d ≤ 31))
  match r5 with
  | [] => some (encodeDT y mo d 0 0 0)
  | _ => do
    let r6 ← expectChar 'T' r5
    let (h, r7) ← read2 r6
    let r8 ← expectChar ':' r7
    let (mi, r9) ← read2 r8
    let r10 ← expectChar ':' r9
    let (s, r11) ← read2 r10
    let _ ← ensureB (decide (h < 24) && decide (mi < 60) && decide (s < 60)
        && readOffset r11)
    some (encodeDT y mo d h mi s)

/-- Models str.replace("Z", "+00:00"): every occurrence of the character
Z is replaced by the six characters of +00:00. -/
def replaceZ : List Char → List Char
  | [] => []
  | c :: rest =>
    if c = 'Z' then '+' :: '0' :: '0' :: ':' :: '0' :: '0' :: replaceZ rest
    else c :: replaceZ rest

/-- The created_at computation of GithubEvent.__init__: a string value is
run through replace("Z", "+00:00") and fromisoformat, any parse failure
or non string value yielding datetime.min. -/
def parseCreatedAt (ed : RawEvent) : Int :=
  match (ed.lookup "created_at").getD .none with
  | .str s => (parseISO (replaceZ s.toList)).getD datetimeMin
  | _ => datetimeMin

/-! ## The normalized event record -/

/-- The normalized event record built by GithubEvent.__init__.  In any
successfully constructed record the payload is a dict (a truthy non dict
payload value makes __init__ raise before completing). -/
structure GithubEvent where
  type : PyVal
  repo_name : PyVal
  created_at : Int
  actor : PyVal
  payload : List (String × PyVal)
  commit_count : Int

/-- Commit count derivation for Push events, from __init__:
count = int(payload.get("size", 1) or 0); if count <= 0 and the payload
has a commits list, count is its length; a ValueError or TypeError from
int() falls back to the commits list length when present, else 0. -/
def pushCount (payload : List (String × PyVal)) : Int :=
  let commits := (payload.lookup "commits").getD .none
  let sizeV := (payload.lookup "size").getD (.int 1)
  let sizeOr := if sizeV.truthy then sizeV else .int 0
  match pyIntOf sizeOr with
  | some n =>
    if n ≤ 0 then
      match commits with
      | .list cs => (cs.length : Int)
      | _ => n
    else n
  | Option.none =>
    match commits with
    | .list cs => (cs.length : Int)
    | _ => 0

/-- Commit count derivation for non Push events, from __init__: when the
payload has a nonempty commits list, the number of entries whose distinct
flag (default true) is truthy, any exception in that sum giving 0 (a non
dict entry has no .get); otherwise 0. -/
def nonPushCount (payload : List (String × PyVal)) : Int :=
  match (payload.lookup "commits").getD .none with
  | .list cs =>
    if cs.isEmpty then 0
    else
      match cs.foldlM
          (fun (acc : Int) c =>
            match c with
            | .dict kvs =>
              Except.ok (acc +
                (if ((kvs.lookup "distinct").getD (.bool true)).truthy then 1 else 0))
            | _ => (Except.error () : Except Unit Int)) 0 with
      | Except.ok n => n
      | Except.error _ => 0
  | _ => 0

/-- Commit count before the final clamp, branching on whether the type
field equals "PushEvent". -/
def computeCount (type : PyVal) (payload : List (String × PyVal)) : Int :=
  if pyEqStr type "PushEvent" then pushCount payload else nonPushCount payload

/-- The self.payload assignment: event_data.get("payload") or empty dict. -/
def payloadVal (ed : RawEvent) : PyVal :=
  if ((ed.lookup "payload").getD .none).truthy then (ed.lookup "payload").getD .none
  else .dict []

/-- GithubEvent.__init__ over a raw payload dict.  The three fallible
steps are exactly those of the source: .get("name") on the repo value,
.get("login") on the actor value (each raising when the value present
under the key is neither absent nor a dict), and the commits lookup on a
truthy non dict payload.  Everything else (timestamp parsing, the commit
count arithmetic) absorbs malformed input, as in the source. -/
def GithubEvent.init (ed : RawEvent) : Except Unit GithubEvent :=
  match dictGet ((ed.lookup "repo").getD (.dict [])) "name" with
  | Except.error e => Except.error e
  | Except.ok repoName =>
    match dictGet ((ed.lookup "actor").getD (.dict [])) "login" with
    | Except.error e => Except.error e
    | Except.ok actorV =>
      match asDict (payloadVal ed) with
      | Except.error e => Except.error e
      | Except.ok kvs =>
        Except.ok
          { type := (ed.lookup "type").getD .none
            repo_name := repoName
            created_at := parseCreatedAt ed
            actor := actorV
            payload := kvs
            commit_count := max (computeCount ((ed.lookup "type").getD .none) kvs) 0 }

/-! ## Sorting strategies

Python list.sort / sorted is a stable sort; it is embedded as a stable
insertion sort in the `Except` monad, each comparison going through the
Python comparison model `pyLt` so that a TypeError raised by a key
comparison (for example None against a string) aborts the sort exactly as
in Python.  For total comparators the stable insertion sort returns the
unique stable ascending reordering, which is what sorted produces. -/

/-- Inserts x into an already sorted accumulator: x passes over every
element it is not strictly less than, so it lands after all elements with
an equal key (stability), and a comparison error aborts. -/
def insertStable {α : Type} (lt : α → α → Except Unit Bool) (x : α) :
    List α → Except Unit (List α)
  | [] => Except.ok [x]
  | y :: ys =>
    match lt x y with
    | Except.error e => Except.error e
    | Except.ok true => Except.ok (x :: y :: ys)
    | Except.ok false =>
      match insertStable lt x ys with
      | Except.error e => Except.error e
      | Except.ok r => Except.ok (y :: r)

/-- Folds the input into a sorted accumulator, left to right. -/
def sortGo {α : Type} (lt : α → α → Except Unit Bool) :
    List α → List α → Except Unit (List α)
  | acc, [] => Except.ok acc
  | acc, x :: xs =>
    match insertStable lt x acc with
    | Except.error e => Except.error e
    | Except.ok r => sortGo lt r xs

/-- The stable sort: models Python sorted(l, key) with a possibly
failing comparison on the keys. -/
def stableSortE {α : Type} (lt : α → α → Except Unit Bool) (l : List α) :
    Except Unit (List α) :=
  sortGo lt [] l

/-- Sortedness with respect to a possibly failing strict comparison: no
later element is strictly less than an earlier one. -/
def SortedBy {α : Type} (lt : α → α → Except Unit Bool) (l : List α) : Prop :=
  l.Pairwise (fun a b => lt b a ≠ Except.ok true)

/-- SortByDate comparison: sorted(events, key created_at, reverse true),
stable descending, so a is placed before b when the key of b is strictly
smaller.  Datetime keys always compare, so no error arises. -/
def dateLt (a b : GithubEvent) : Except Unit Bool :=
  Except.ok (decide (b.created_at < a.created_at))

/-- SortByDate.sort. -/
def sortByDate (l : List GithubEvent) : Except Unit (List GithubEvent) :=
  stableSortE dateLt l

/-- The SortByType key: e.type if e.type is not None else the empty
string. -/
def typeKey (e : GithubEvent) : PyVal :=
  match e.type with
  | .none => .str ""
  | t => t

/-- SortByType comparison on the type keys. -/
def typeLt (a b : GithubEvent) : Except Unit Bool :=
  pyLt (typeKey a) (typeKey b)

/-- SortByType.sort. -/
def sortByType (l : List GithubEvent) : Except Unit (List GithubEvent) :=
  stableSortE typeLt l

/-- SortByRepository comparison: the bare repo_name key, with no guard
for an absent (None) name. -/
def repoLt (a b : GithubEvent) : Except Unit Bool :=
  pyLt a.repo_name b.repo_name

/-- SortByRepository.sort. -/
def sortByRepository (l : List GithubEvent) : Except Unit (List GithubEvent) :=
  stableSortE repoLt l

/-! ## Aggregation -/

/-- The STATS_DAYS constant of the source. -/
def STATS_DAYS : Int := 30

/-- One day of the instant encoding, used for timedelta(days) arithmetic. -/
def secondsPerDay : Int := 86400

/-- filter_recent_events: keeps events whose created_at is not the
sentinel and is at least now minus the window (the source has no upper
bound against future timestamps). -/
def filter_recent_events (events : List GithubEvent) (days now : Int) :
    List GithubEvent :=
  events.filter
    (fun e => decide (e.created_at ≠ datetimeMin)
      && decide (now - days * secondsPerDay ≤ e.created_at))

/-- Counter increment preserving first insertion order, as a Python
Counter converted by dict() does: an existing key is updated in place, a
new key is appended (also when the added amount is zero, since
Counter getitem materializes the key). -/
def bump : List (String × Int) → String → Int → List (String × Int)
  | [], key, n => [(key, n)]
  | (k, v) :: rest, key, n =>
    if k = key then (k, v + n) :: rest else (k, v) :: bump rest key n

/-- The category bucket and added amount for one event in
aggregate_stats: Push adds max(commit_count, 0) to Commits, every other
recognized kind adds one to its bucket, anything else adds one to
Other. -/
def bucketOf (e : GithubEvent) : String × Int :=
  if pyEqStr e.type "PushEvent" then ("Commits", max e.commit_count 0)
  else if pyEqStr e.type "PullRequestEvent" then ("Pull requests", 1)
  else if pyEqStr e.type "IssuesEvent" then ("Issues", 1)
  else if pyEqStr e.type "WatchEvent" then ("Stars / Watches", 1)
  else if pyEqStr e.type "ForkEvent" then ("Forks", 1)
  else if pyEqStr e.type "CreateEvent" then ("Creates", 1)
  else if pyEqStr e.type "DeleteEvent" then ("Deletes", 1)
  else ("Other", 1)

/-- aggregate_stats: filters to the window, returns None (the distinct
no data result) when nothing remains, otherwise the insertion ordered
category counts. -/
def aggregate_stats (events : List GithubEvent) (days now : Int) :
    Option (List (String × Int)) :=
  let recent := filter_recent_events events days now
  if recent.isEmpty then Option.none
  else some (recent.foldl (fun st e => bump st (bucketOf e).1 (bucketOf e).2) [])

/-! ## Two tier cache

The cache state for one key (one username) holds the self.events list,
the memory_cache entry for the key, and the durable tier represented by
its parsed content: the recorded fetch instant and the stored raw event
dicts (a missing, unreadable or unparsable file is `Option.none`, which
load_from_file_cache treats as a miss).  Remote outcomes and printed
messages are represented by small inductives. -/

/-- TTL = timedelta(minutes 10), in seconds of the instant encoding. -/
def TTL : Int := 600

/-- State of one Request plus the cache tiers for its key. -/
structure ReqState where
  events : List GithubEvent
  memory : Option (List GithubEvent × Int)
  file : Option (Int × List RawEvent)

/-- Outcome of the injected remote fetch: a JSON list of raw events, an
HTTP error status, or a transport level exception. -/
inductive RemoteResult where
  | success (data : List RawEvent)
  | httpError (code : Int)
  | transportError

/-- The user visible message printed by Request.fetch, when any. -/
inductive Msg where
  | noActivity
  | userNotFound
  | apiError (code : Int)
  | genericError

/-- Result of one Request.fetch call: the boolean return value, the
state afterwards, whether the remote fetch was invoked, and the printed
message. -/
structure FetchResult where
  ok : Bool
  st : ReqState
  remoteCalled : Bool
  message : Option Msg

/-- Request.load_from_file_cache: a present durable entry is used only
when its recorded instant is within TTL (strictly), and rebuilding the
events can itself fail (the except branch), which reads as a miss. -/
def load_from_file_cache (file : Option (Int × List RawEvent)) (now : Int) :
    Option (List GithubEvent) :=
  match file with
  | Option.none => Option.none
  | some (ts, raws) =>
    if now - ts < TTL then
      match raws.mapM GithubEvent.init with
      | Except.ok evs => some evs
      | Except.error _ => Option.none
    else Option.none

/-- Two digit zero padded decimal. -/
def pad2 (n : Int) : String :=
  if n < 10 then "0" ++ toString n else toString n

/-- Four digit zero padded decimal (the year field of isoformat). -/
def pad4 (n : Int) : String :=
  if n < 10 then "000" ++ toString n
  else if n < 100 then "00" ++ toString n
  else if n < 1000 then "0" ++ toString n
  else toString n

/-- datetime.isoformat on the encoded instant: decodes the naive fields
and prints YYYY-MM-DDTHH:MM:SS. -/
def isoformatDT (v : Int) : String :=
  pad4 (v / (secondsPerDay * 32 * 13)) ++ "-" ++ pad2 ((v / (secondsPerDay * 32)) % 13)
    ++ "-" ++ pad2 ((v / secondsPerDay) % 32) ++ "T" ++ pad2 ((v / 3600) % 24)
    ++ ":" ++ pad2 ((v / 60) % 60) ++ ":" ++ pad2 (v % 60)

/-- The per event dict written by save_to_file_cache (type, repo.name,
actor.login, created_at isoformat, payload). -/
def toRawEvent (e : GithubEvent) : RawEvent :=
  [("type", e.type),
   ("repo", .dict [("name", e.repo_name)]),
   ("actor", .dict [("login", e.actor)]),
   ("created_at", .str (isoformatDT e.created_at)),
   ("payload", .dict e.payload)]

/-- The remote branch of Request.fetch: an empty JSON list prints the
no activity message and returns False without touching either cache
tier; a nonempty list is normalized (a normalization error is caught by
the blanket except and returns False), stored in the memory tier and
saved to the durable tier (a save failure is non fatal, modeled by the
saveFails flag); HTTP 404, other HTTP errors and transport errors print
their messages and return False. -/
def fetchRemote (st : ReqState) (now : Int) (remote : RemoteResult)
    (saveFails : Bool) : FetchResult :=
  match remote with
  | .success data =>
    if data.isEmpty then ⟨false, st, true, some Msg.noActivity⟩
    else
      match data.mapM GithubEvent.init with
      | Except.ok evs =>
        ⟨true,
          { events := evs, memory := some (evs, now),
            file := if saveFails then st.file else some (now, evs.map toRawEvent) },
          true, Option.none⟩
      | Except.error _ => ⟨false, st, true, some Msg.genericError⟩
  | .httpError c =>
    ⟨false, st, true, some (if c = 404 then Msg.userNotFound else Msg.apiError c)⟩
  | .transportError => ⟨false, st, true, some Msg.genericError⟩

/-- The durable tier step of Request.fetch: `if file_cache:` is a Python
truthiness test, so a hit must be non None and nonempty; a hit is
promoted into the memory tier stamped with datetime.now(), not with the
durable entry instant. -/
def fetchFile (st : ReqState) (now : Int) (remote : RemoteResult)
    (saveFails : Bool) : FetchResult :=
  match load_from_file_cache st.file now with
  | some evs =>
    if evs.isEmpty then fetchRemote st now remote saveFails
    else ⟨true, { events := evs, memory := some (evs, now), file := st.file }, false,
      Option.none⟩
  | Option.none => fetchRemote st now remote saveFails

/-- Request.fetch: memory tier first (entry present and strictly within
TTL), then the durable tier, then the remote fetch. -/
def fetch (st : ReqState) (now : Int) (remote : RemoteResult)
    (saveFails : Bool) : FetchResult :=
  match st.memory with
  | some (evs, t) =>
    if now - t < TTL then ⟨true, { st with events := evs }, false, Option.none⟩
    else fetchFile st now remote saveFails
  | Option.none => fetchFile st now remote saveFails

/-! ## The durable write protocol

save_to_file_cache serializes the cache document to a temporary file next
to the target and renames it over the target; on any exception it deletes
a residual temporary file and leaves the target alone.  The file system
slice touched by the routine is the pair of paths (target, temp); a file
content is modeled by the JSON document value written to it (json.dump is
deterministic, so equal document values mean byte identical files, and an
untouched target trivially keeps its exact bytes).
convert_to_json_serializable is the identity on the modeled value
universe: its non trivial branches concern Python sets and objects
outside the JSON model, which `PyVal` does not contain. -/

/-- Contents of the two paths used by the write protocol. -/
structure DurableFS where
  target : Option PyVal
  temp : Option PyVal

/-- Injection point of a simulated failure inside save_to_file_cache. -/
inductive SaveFail where
  | duringSerialize
  | duringWrite
  | duringRename

/-- Observable file system operations of one save attempt. -/
inductive FsOp where
  | writeTemp
  | renameTempToTarget
  | unlinkTemp

/-- The cache document: insertion timestamp plus the serialized events. -/
def cacheDoc (events : List GithubEvent) (now : Int) : PyVal :=
  .dict [("timestamp", .str (isoformatDT now)),
         ("events", .list (events.map (fun e => .dict (toRawEvent e))))]

/-- Request.save_to_file_cache with an optional injected failure: on
success the document is written to the temp path and renamed over the
target; a failure while serializing aborts before the temp write, a
failure while writing leaves a partial temp file, a failure while
renaming leaves a complete temp file — in each failure case the except
branch deletes any residual temp file and the target is not touched. -/
def save_to_file_cache (fs : DurableFS) (events : List GithubEvent) (now : Int)
    (failAt : Option SaveFail) : DurableFS × List FsOp :=
  match failAt with
  | some .duringSerialize =>
    (⟨fs.target, Option.none⟩, if fs.temp.isSome then [FsOp.unlinkTemp] else [])
  | some .duringWrite =>
    (⟨fs.target, Option.none⟩, [FsOp.writeTemp, FsOp.unlinkTemp])
  | some .duringRename =>
    (⟨fs.target, Option.none⟩, [FsOp.writeTemp, FsOp.unlinkTemp])
  | Option.none =>
    (⟨some (cacheDoc events now), Option.none⟩,
      [FsOp.writeTemp, FsOp.renameTempToTarget])

/-! ## Claim side predicates and concrete values -/

/-- The value under a key is absent or a dict: the shapes for which a
chained .get cannot raise. -/
def goodOptDict : Option PyVal → Bool
  | Option.none => true
  | some (.dict _) => true
  | some _ => false

/-- The payload value is absent, falsy, or a dict: the shapes for which
self.payload.get cannot raise. -/
def payloadGood (ed : RawEvent) : Bool :=
  match (ed.lookup "payload").getD .none with
  | .dict _ => true
  | v => !v.truthy

/-- The size field is non positive or non numeric in the sense of the
spec: int() on it fails, or yields an integer at most 0. -/
def sizeBad (v : PyVal) : Prop :=
  pyIntOf v = Option.none ∨ ∃ n, pyIntOf v = some n ∧ n ≤ 0

/-- A minimal raw Push event used as concrete cached data in boundary
scenarios. -/
def rawPushW : RawEvent := [("type", PyVal.str "PushEvent")]

/-- The normalized record of `rawPushW`. -/
def evPushW : GithubEvent :=
  ⟨PyVal.str "PushEvent", PyVal.none, datetimeMin, PyVal.none, [], 1⟩

/-! # Theorems -/

theorem pyEqStr_iff (v : PyVal) (lit : String) :
    pyEqStr v lit = true ↔ v = .str lit := by
  cases v <;> simp [pyEqStr]

theorem zip_self_eq_map {α : Type} (xs : List α) :
    xs.zip xs = xs.map (fun x => (x, x)) := by
  induction xs with
  | nil => rfl
  | cons x xs ih => simp [List.zip_cons_cons, ih]

theorem beqListF_sound (n : Nat) (IH : ∀ a b : PyVal, pyBeqF n a b = true → a = b) :
    ∀ xs ys : List PyVal, xs.length = ys.length →
      (∀ p ∈ xs.zip ys, pyBeqF n p.1 p.2 = true) → xs = ys := by
  intro xs
  induction xs with
  | nil =>
    intro ys h _
    cases ys with
    | nil => rfl
    | cons _ _ => simp at h
  | cons x xs ih =>
    intro ys hlen hall
    cases ys with
    | nil => simp at hlen
    | cons y ys =>
      have h1 : x = y := IH x y (hall (x, y) (by simp))
      have h2 : xs = ys := ih ys (by simpa using hlen) (fun p hp => hall p (by simp [hp]))
      rw [h1, h2]

theorem beqKVsF_sound (n : Nat) (IH : ∀ a b : PyVal, pyBeqF n a b = true → a = b) :
    ∀ xs ys : List (String × PyVal), xs.length = ys.length →
      (∀ p ∈ xs.zip ys, (p.1.1 == p.2.1 && pyBeqF n p.1.2 p.2.2) = true) → xs = ys := by
  intro xs
  induction xs with
  | nil =>
    intro ys h _
    cases ys with
    | nil => rfl
    | cons _ _ => simp at h
  | cons x xs ih =>
    intro ys hlen hall
    cases ys with
    | nil => simp at hlen
    | cons y ys =>
      have h0 := hall (x, y) (by simp)
      simp only [Bool.and_eq_true, beq_iff_eq] at h0
      have h1 : x = y := Prod.ext h0.1 (IH x.2 y.2 h0.2)
      have h2 : xs = ys := ih ys (by simpa using hlen) (fun p hp => hall p (by simp [hp]))
      rw [h1, h2]

/-- Soundness of the fuel indexed equality: a true answer at any fuel
means the values are equal. -/
theorem pyBeqF_sound : ∀ (n : Nat) (a b : PyVal), pyBeqF n a b = true → a = b := by
  intro n
  induction n with
  | zero => intro a b h; exact absurd h (by simp [pyBeqF])
  | succ n IH =>
    intro a b h
    cases a <;> cases b <;> simp [pyBeqF] at h <;> try (first | rfl | (rw [h]))
    case list.list xs ys =>
      refine congrArg PyVal.list (beqListF_sound n IH xs ys h.1 ?_)
      intro p hp
      obtain ⟨a, b⟩ := p
      exact h.2 a b hp
    case dict.dict xs ys =>
      refine congrArg PyVal.dict (beqKVsF_sound n IH xs ys h.1 ?_)
      intro p hp
      obtain ⟨⟨a, b⟩, c, d⟩ := p
      have h3 := h.2 a b c d hp
      simp [h3.1, h3.2]

/-- Completeness of the fuel indexed equality: with fuel at least the
size of the value, every value is equal to itself. -/
theorem pyBeqF_complete : ∀ (n : Nat) (a : PyVal), sizeOf a ≤ n → pyBeqF n a a = true := by
  intro n
  induction n with
  | zero => intro a h; exact absurd h (by cases a <;> simp)
  | succ n IH =>
    intro a h
    cases a <;>
      simp only [pyBeqF, zip_self_eq_map, beq_self_eq_true, Bool.and_eq_true,
        List.all_eq_true, List.mem_map, true_and, beq_iff_eq]
    case list xs =>
      rintro p ⟨x, hx, rfl⟩
      refine IH x ?_
      have h1 := List.sizeOf_lt_of_mem hx
      have h2 : sizeOf (PyVal.list xs) = 1 + sizeOf xs := by simp
      omega
    case dict xs =>
      rintro p ⟨x, hx, rfl⟩
      refine ⟨rfl, IH x.2 ?_⟩
      have h1 := List.sizeOf_lt_of_mem hx
      have h2 : sizeOf (PyVal.dict xs) = 1 + sizeOf xs := by simp
      have h3 : sizeOf x.2 < sizeOf x := by cases x; simp
      omega

/-- A value never compares strictly below itself. -/
theorem pyLt_irrefl (v : PyVal) : pyLt v v ≠ Except.ok true := by
  rcases hv : cmpClass v with _ | (x | s) <;> simp [pyLt, hv]

/-- Python strict comparison is asymmetric where it is defined. -/
theorem pyLt_asymm (a b : PyVal) (h : pyLt a b = Except.ok true) :
    pyLt b a ≠ Except.ok true := by
  rcases ha : cmpClass a with _ | (x | s) <;>
    rcases hb : cmpClass b with _ | (y | t) <;>
      simp [pyLt, ha, hb] at h ⊢
  · omega
  · exact le_of_lt h

/-- Python strict comparison is transitive where it is defined. -/
theorem pyLt_trans (a b c : PyVal) (h1 : pyLt a b = Except.ok true)
    (h2 : pyLt b c = Except.ok true) : pyLt a c = Except.ok true := by
  rcases ha : cmpClass a with _ | (x | s) <;>
    rcases hb : cmpClass b with _ | (y | t) <;>
      rcases hc : cmpClass c with _ | (z | u) <;>
        simp [pyLt, ha, hb, hc] at h1 h2 ⊢
  · omega
  · exact lt_trans h1 h2

theorem insertStable_perm {α : Type} (lt : α → α → Except Unit Bool) (x : α) :
    ∀ (acc r : List α), insertStable lt x acc = Except.ok r → r.Perm (x :: acc) := by
  intro acc
  induction acc with
  | nil =>
    intro r h
    simp only [insertStable, Except.ok.injEq] at h
    subst h
    exact List.Perm.refl _
  | cons y ys ih =>
    intro r h
    simp only [insertStable] at h
    split at h
    · cases h
    · injection h with h
      subst h
      exact List.Perm.refl _
    · split at h
      · cases h
      · rename_i r' heq2
        injection h with h
        subst h
        exact ((ih r' heq2).cons y).trans (List.Perm.swap x y ys)


theorem insertStable_sorted {α : Type} (lt : α → α → Except Unit Bool)
    (Hasym : ∀ a b, lt a b = Except.ok true → lt b a ≠ Except.ok true)
    (Htrans : ∀ a b c, lt a b = Except.ok true → lt b c = Except.ok true →
      lt a c = Except.ok true) (x : α) :
    ∀ acc r, SortedBy lt acc → insertStable lt x acc = Except.ok r → SortedBy lt r := by
  intro acc
  induction acc with
  | nil =>
    intro r _ h
    simp only [insertStable, Except.ok.injEq] at h
    subst h
    simp [SortedBy]
  | cons y ys ih =>
    intro r hs h
    have hys := List.pairwise_cons.mp hs
    simp only [insertStable] at h
    split at h
    · cases h
    · rename_i heq
      injection h with h
      subst h
      refine List.pairwise_cons.mpr ⟨?_, hs⟩
      intro z hz
      rcases List.mem_cons.mp hz with rfl | hz2
      · exact Hasym x z heq
      · intro hzx
        exact absurd (Htrans z x y hzx heq) (hys.1 z hz2)
    · rename_i hfalse
      split at h
      · cases h
      · rename_i r' heq2
        injection h with h
        subst h
        refine List.pairwise_cons.mpr ⟨?_, ih r' hys.2 heq2⟩
        intro z hz
        rcases List.mem_cons.mp ((insertStable_perm lt x ys r' heq2).mem_iff.mp hz) with
          rfl | hz2
        · simp [hfalse]
        · exact hys.1 z hz2

theorem insertStable_filter {α : Type} (lt : α → α → Except Unit Bool) (p : α → Bool)
    (Hp1 : ∀ a b, p a = true → p b = true → lt a b ≠ Except.ok true)
    (Hp2 : ∀ a b c, p a = true → p b = true → lt a c = lt b c) (x : α) :
    ∀ acc r, SortedBy lt acc → insertStable lt x acc = Except.ok r →
      r.filter p = if p x then acc.filter p ++ [x] else acc.filter p := by
  intro acc
  induction acc with
  | nil =>
    intro r _ h
    simp only [insertStable, Except.ok.injEq] at h
    subst h
    by_cases hp : p x <;> simp [List.filter_cons, hp]
  | cons y ys ih =>
    intro r hs h
    have hys := List.pairwise_cons.mp hs
    simp only [insertStable] at h
    split at h
    · cases h
    · rename_i heq
      injection h with h
      subst h
      by_cases hpx : p x
      · have hnone : ∀ z ∈ y :: ys, p z = false := by
          intro z hz
          by_contra hzp
          have hzp2 : p z = true := by simpa using hzp
          rcases List.mem_cons.mp hz with rfl | hz2
          · exact Hp1 x z hpx hzp2 heq
          · have hzy : lt z y = Except.ok true := by
              rw [Hp2 z x y hzp2 hpx]; exact heq
            exact absurd hzy (hys.1 z hz2)
        have hfil : (y :: ys).filter p = [] := by
          rw [List.filter_eq_nil_iff]
          intro z hz
          simp [hnone z hz]
        simp [List.filter_cons, hpx, hfil]
      · simp [List.filter_cons, hpx]
    · split at h
      · cases h
      · rename_i r' heq2
        injection h with h
        subst h
        have hr' := ih r' hys.2 heq2
        by_cases hpx : p x
        · simp only [hpx, if_true] at hr' ⊢
          by_cases hpy : p y <;> simp [List.filter_cons, hpy, hr']
        · simp only [hpx, if_false] at hr' ⊢
          by_cases hpy : p y <;> simp [List.filter_cons, hpy, hr']

theorem sortGo_perm {α : Type} (lt : α → α → Except Unit Bool) :
    ∀ (l acc : List α) (r), sortGo lt acc l = Except.ok r → r.Perm (acc ++ l) := by
  intro l
  induction l with
  | nil =>
    intro acc r h
    simp only [sortGo, Except.ok.injEq] at h
    subst h
    simp
  | cons x xs ih =>
    intro acc r h
    simp only [sortGo] at h
    split at h
    · cases h
    · rename_i r1 heq
      refine (ih r1 r h).trans ?_
      refine ((insertStable_perm lt x acc r1 heq).append_right xs).trans ?_
      exact List.perm_middle.symm

theorem sortGo_sorted {α : Type} (lt : α → α → Except Unit Bool)
    (Hasym : ∀ a b, lt a b = Except.ok true → lt b a ≠ Except.ok true)
    (Htrans : ∀ a b c, lt a b = Except.ok true → lt b c = Except.ok true →
      lt a c = Except.ok true) :
    ∀ (l acc : List α) (r), SortedBy lt acc → sortGo lt acc l = Except.ok r →
      SortedBy lt r := by
  intro l
  induction l with
  | nil =>
    intro acc r hs h
    simp only [sortGo, Except.ok.injEq] at h
    subst h
    exact hs
  | cons x xs ih =>
    intro acc r hs h
    simp only [sortGo] at h
    split at h
    · cases h
    · rename_i r1 heq
      exact ih r1 r (insertStable_sorted lt Hasym Htrans x acc r1 hs heq) h

theorem sortGo_filter {α : Type} (lt : α → α → Except Unit Bool) (p : α → Bool)
    (Hasym : ∀ a b, lt a b = Except.ok true → lt b a ≠ Except.ok true)
    (Htrans : ∀ a b c, lt a b = Except.ok true → lt b c = Except.ok true →
      lt a c = Except.ok true)
    (Hp1 : ∀ a b, p a = true → p b = true → lt a b ≠ Except.ok true)
    (Hp2 : ∀ a b c, p a = true → p b = true → lt a c = lt b c) :
    ∀ (l acc : List α) (r), SortedBy lt acc → sortGo lt acc l = Except.ok r →
      r.filter p = acc.filter p ++ l.filter p := by
  intro l
  induction l with
  | nil =>
    intro acc r _ h
    simp only [sortGo, Except.ok.injEq] at h
    subst h
    simp
  | cons x xs ih =>
    intro acc r hs h
    simp only [sortGo] at h
    split at h
    · cases h
    · rename_i r1 heq
      have hf := insertStable_filter lt p Hp1 Hp2 x acc r1 hs heq
      have hs1 := insertStable_sorted lt Hasym Htrans x acc r1 hs heq
      have hrec := ih r1 r hs1 h
      by_cases hpx : p x
      · rw [hrec, hf]
        simp [hpx, List.filter_cons]
      · rw [hrec, hf]
        simp [hpx, List.filter_cons]

theorem stableSortE_perm {α : Type} (lt : α → α → Except Unit Bool)
    (l r : List α) (h : stableSortE lt l = Except.ok r) : r.Perm l := by
  simpa using sortGo_perm lt l [] r h

theorem stableSortE_sorted {α : Type} (lt : α → α → Except Unit Bool)
    (Hasym : ∀ a b, lt a b = Except.ok true → lt b a ≠ Except.ok true)
    (Htrans : ∀ a b c, lt a b = Except.ok true → lt b c = Except.ok true →
      lt a c = Except.ok true)
    (l r : List α) (h : stableSortE lt l = Except.ok r) : SortedBy lt r :=
  sortGo_sorted lt Hasym Htrans l [] r (List.Pairwise.nil) h

theorem stableSortE_filter {α : Type} (lt : α → α → Except Unit Bool) (p : α → Bool)
    (Hasym : ∀ a b, lt a b = Except.ok true → lt b a ≠ Except.ok true)
    (Htrans : ∀ a b c, lt a b = Except.ok true → lt b c = Except.ok true →
      lt a c = Except.ok true)
    (Hp1 : ∀ a b, p a = true → p b = true → lt a b ≠ Except.ok true)
    (Hp2 : ∀ a b c, p a = true → p b = true → lt a c = lt b c)
    (l r : List α) (h : stableSortE lt l = Except.ok r) : r.filter p = l.filter p := by
  simpa using sortGo_filter lt p Hasym Htrans Hp1 Hp2 l [] r (List.Pairwise.nil) h

theorem insertStable_repo_total (x : GithubEvent) (sx : String)
    (hx : x.repo_name = PyVal.str sx) :
    ∀ acc, (∀ b ∈ acc, ∃ s, b.repo_name = PyVal.str s) →
      ∃ r, insertStable repoLt x acc = Except.ok r := by
  intro acc
  induction acc with
  | nil => exact fun _ => ⟨[x], rfl⟩
  | cons y ys ih =>
    intro hacc
    obtain ⟨sy, hsy⟩ := hacc y (by simp)
    have hlt : repoLt x y = Except.ok (decide (sx < sy)) := by
      simp [repoLt, hx, hsy, pyLt, cmpClass]
    by_cases hd : sx < sy
    · exact ⟨x :: y :: ys, by simp [insertStable, hlt, hd]⟩
    · obtain ⟨r, hr⟩ := ih (fun b hb => hacc b (by simp [hb]))
      exact ⟨y :: r, by simp [insertStable, hlt, hd, hr]⟩

theorem sortGo_repo_total :
    ∀ (l acc : List GithubEvent), (∀ a ∈ l, ∃ s, a.repo_name = PyVal.str s) →
      (∀ b ∈ acc, ∃ s, b.repo_name = PyVal.str s) →
      ∃ r, sortGo repoLt acc l = Except.ok r := by
  intro l
  induction l with
  | nil => exact fun acc _ _ => ⟨acc, rfl⟩
  | cons x xs ih =>
    intro acc hl hacc
    obtain ⟨sx, hsx⟩ := hl x (by simp)
    obtain ⟨r1, hr1⟩ := insertStable_repo_total x sx hsx acc hacc
    have hr1good : ∀ b ∈ r1, ∃ s, b.repo_name = PyVal.str s := by
      intro b hb
      rcases List.mem_cons.mp ((insertStable_perm repoLt x acc r1 hr1).mem_iff.mp hb) with
        rfl | hb2
      · exact ⟨sx, hsx⟩
      · exact hacc b hb2
    obtain ⟨r, hr⟩ := ih r1 (fun a haa => hl a (by simp [haa])) hr1good
    exact ⟨r, by simp [sortGo, hr1, hr]⟩

/-- Inversion of a successful GithubEvent.__init__: the type field is
the payload type value and the commit count is the clamped derived
count over the stored payload. -/
theorem init_ok_inv (ed : RawEvent) (e : GithubEvent)
    (h : GithubEvent.init ed = Except.ok e) :
    e.type = (ed.lookup "type").getD .none ∧
      e.commit_count = max (computeCount e.type e.payload) 0 := by
  simp only [GithubEvent.init] at h
  split at h
  · cases h
  · split at h
    · cases h
    · split at h
      · cases h
      · injection h with h
        subst h
        exact ⟨rfl, rfl⟩

theorem dictGet_ok_of_good (o : Option PyVal) (key : String)
    (h : goodOptDict o = true) :
    ∃ v, dictGet (o.getD (PyVal.dict [])) key = Except.ok v := by
  rcases o with _ | v
  · exact ⟨_, rfl⟩
  · cases v <;> first | exact ⟨_, rfl⟩ | simp [goodOptDict] at h

theorem asDict_ok_of_payloadGood (ed : RawEvent) (h : payloadGood ed = true) :
    ∃ kvs, asDict (payloadVal ed) = Except.ok kvs := by
  unfold payloadGood at h
  unfold payloadVal
  cases hv : (ed.lookup "payload").getD PyVal.none with
  | none => exact ⟨[], rfl⟩
  | bool b =>
    rw [hv] at h
    simp [PyVal.truthy] at h
    exact ⟨[], by simp [PyVal.truthy, h, asDict]⟩
  | int n =>
    rw [hv] at h
    simp [PyVal.truthy] at h
    exact ⟨[], by simp [PyVal.truthy, h, asDict]⟩
  | str s =>
    rw [hv] at h
    simp [PyVal.truthy] at h
    exact ⟨[], by simp [PyVal.truthy, h, asDict]⟩
  | list xs =>
    rw [hv] at h
    simp [PyVal.truthy] at h
    exact ⟨[], by simp [PyVal.truthy, h, asDict]⟩
  | dict kvs =>
    by_cases ht : (PyVal.dict kvs).truthy <;> simp [ht, asDict]

theorem fetchRemote_called (st : ReqState) (now : Int) (remote : RemoteResult)
    (sf : Bool) : (fetchRemote st now remote sf).remoteCalled = true := by
  cases remote with
  | success data =>
    cases data with
    | nil => rfl
    | cons d ds =>
      unfold fetchRemote
      dsimp only
      cases hm : (d :: ds).mapM GithubEvent.init with
      | ok evs => rfl
      | error e => rfl
  | httpError c => rfl
  | transportError => rfl

/-! ## Claim theorems -/

/-- C1 counterexample: GithubEvent construction is not total.  On the raw
payload dict that maps "repo" to null, `event_data.get("repo", {}).get("name")`
calls .get on None and raises AttributeError, so no record is
produced. -/
theorem init_raises_on_null_repo :
    GithubEvent.init [("repo", PyVal.none)] = Except.error () := rfl

/-- C1 amended: GithubEvent construction succeeds for every raw payload
dict whose "repo" and "actor" keys are each absent or mapped to a dict
and whose "payload" key is absent, falsy, or a dict; the absent key
fallbacks and the timestamp and commit count fallbacks absorb everything
else.  (It raises when "repo" or "actor" is null or a non dict, or when
"payload" is a truthy non dict.) -/
theorem init_total_for_wellshaped_payloads (ed : RawEvent)
    (hr : goodOptDict (ed.lookup "repo") = true)
    (ha : goodOptDict (ed.lookup "actor") = true)
    (hp : payloadGood ed = true) :
    ∃ e, GithubEvent.init ed = Except.ok e := by
  obtain ⟨v1, hv1⟩ := dictGet_ok_of_good _ "name" hr
  obtain ⟨v2, hv2⟩ := dictGet_ok_of_good _ "login" ha
  obtain ⟨kvs, hkvs⟩ := asDict_ok_of_payloadGood ed hp
  refine ⟨⟨(ed.lookup "type").getD .none, v1, parseCreatedAt ed, v2, kvs,
    max (computeCount ((ed.lookup "type").getD .none) kvs) 0⟩, ?_⟩
  unfold GithubEvent.init
  rw [hv1, hv2, hkvs]

/-- C1 amended witness at a concrete well shaped payload. -/
theorem init_total_for_wellshaped_payloads_witness :
    ∃ e, GithubEvent.init [("type", PyVal.str "PushEvent")] = Except.ok e :=
  init_total_for_wellshaped_payloads [("type", PyVal.str "PushEvent")] rfl rfl rfl

/-- C3: the durable write is atomic.  Without a failure the target holds
exactly the serialized document, written through the temp file and an
atomic rename; under a failure injected at any stage the target keeps its
previous content (hence its exact bytes) and no temp file remains. -/
theorem save_to_file_cache_atomic (fs : DurableFS) (events : List GithubEvent)
    (now : Int) (failAt : Option SaveFail) :
    (save_to_file_cache fs events now failAt).1.temp = Option.none ∧
    (failAt = Option.none →
      (save_to_file_cache fs events now failAt).1.target = some (cacheDoc events now) ∧
      (save_to_file_cache fs events now failAt).2 =
        [FsOp.writeTemp, FsOp.renameTempToTarget]) ∧
    (∀ f, failAt = some f →
      (save_to_file_cache fs events now failAt).1.target = fs.target) := by
  rcases failAt with _ | f
  · exact ⟨rfl, fun _ => ⟨rfl, rfl⟩, by simp⟩
  · cases f <;> exact ⟨rfl, by simp, fun _ _ => rfl⟩

/-- C3 witness: a failure in the middle of writing leaves the old durable
entry in place and no temp file. -/
theorem save_to_file_cache_atomic_witness :
    (save_to_file_cache ⟨some (PyVal.str "old"), some (PyVal.str "junk")⟩ [] 0
        (some SaveFail.duringWrite)).1.target = some (PyVal.str "old") ∧
    (save_to_file_cache ⟨some (PyVal.str "old"), some (PyVal.str "junk")⟩ [] 0
        (some SaveFail.duringWrite)).1.temp = Option.none := by
  have h := save_to_file_cache_atomic ⟨some (PyVal.str "old"), some (PyVal.str "junk")⟩
    [] 0 (some SaveFail.duringWrite)
  exact ⟨h.2.2 SaveFail.duringWrite rfl, h.1⟩

/-- C5 counterexample: the window filter has no upper bound, so an event
whose occurred_at lies one day after now is still counted (here now is
1000000000 and the event instant 1000086400 is later), contradicting the
claim that only records within [now - window, now] are counted. -/
theorem aggregate_stats_counts_future_event :
    aggregate_stats
        [⟨PyVal.str "ForkEvent", PyVal.none, 1000086400, PyVal.none, [], 0⟩]
        30 1000000000 = some [("Forks", 1)] ∧
    (1000000000 : Int) <
      (⟨PyVal.str "ForkEvent", PyVal.none, 1000086400, PyVal.none, [], 0⟩ :
        GithubEvent).created_at := by
  constructor
  · rfl
  · norm_num

/-- C5 amended: aggregate_stats counts exactly the records whose
occurred_at is not the sentinel and is at least now minus the window
(future records are included, there is no upper bound), and it returns
the distinct no data result None exactly when that filtered set is
empty. -/
theorem aggregate_stats_window_spec (events : List GithubEvent) (days now : Int) :
    (aggregate_stats events days now = Option.none ↔
      filter_recent_events events days now = []) ∧
    (∀ e, e ∈ filter_recent_events events days now ↔
      (e ∈ events ∧ e.created_at ≠ datetimeMin ∧
        now - days * secondsPerDay ≤ e.created_at)) := by
  constructor
  · unfold aggregate_stats
    by_cases h : (filter_recent_events events days now).isEmpty
    · rw [if_pos h]
      simp only [List.isEmpty_iff] at h
      simp [h]
    · rw [if_neg h]
      simp only [List.isEmpty_iff] at h
      simp [h]
  · intro e
    simp [filter_recent_events, List.mem_filter, and_assoc]

/-- C6: for every successfully normalized Push event the commit count is
nonnegative, and whenever the payload carries a size value that is non
positive or non numeric together with a commits list of length L, the
commit count equals L. -/
theorem push_commit_count_spec (ed : RawEvent) (e : GithubEvent)
    (h : GithubEvent.init ed = Except.ok e) (ht : e.type = PyVal.str "PushEvent") :
    0 ≤ e.commit_count ∧
    (∀ v cs, e.payload.lookup "size" = some v → sizeBad v →
      e.payload.lookup "commits" = some (PyVal.list cs) →
      e.commit_count = (cs.length : Int)) := by
  obtain ⟨-, hcc⟩ := init_ok_inv ed e h
  have hcount : computeCount e.type e.payload = pushCount e.payload := by
    unfold computeCount
    rw [ht]
    simp [pyEqStr]
  constructor
  · rw [hcc]
    exact le_max_right _ _
  · intro v cs hsize hbad hcs
    rw [hcc, hcount]
    unfold pushCount
    simp only [hsize, hcs, Option.getD_some]
    rcases hbad with hnone | ⟨n, hn, hle⟩
    · by_cases htr : v.truthy
      · simp only [htr, if_true, hnone]
        omega
      · simp only [htr, if_false, pyIntOf]
        norm_num
    · by_cases htr : v.truthy
      · simp only [htr, if_true, hn, hle, if_pos]
        omega
      · simp only [htr, if_false, pyIntOf]
        norm_num

/-- C6 witness: a Push payload with non numeric size "x" and a one
element commits list yields commit count 1. -/
theorem push_commit_count_spec_witness :
    ∃ e, GithubEvent.init
        [("type", PyVal.str "PushEvent"),
         ("payload", PyVal.dict [("size", PyVal.str "x"),
           ("commits", PyVal.list [PyVal.dict []])])] =
      Except.ok e ∧ 0 ≤ e.commit_count ∧ e.commit_count = ((1 : Nat) : Int) := by
  have h0 : GithubEvent.init
      [("type", PyVal.str "PushEvent"),
       ("payload", PyVal.dict [("size", PyVal.str "x"),
         ("commits", PyVal.list [PyVal.dict []])])] =
      Except.ok ⟨PyVal.str "PushEvent", PyVal.none, datetimeMin, PyVal.none,
        [("size", PyVal.str "x"), ("commits", PyVal.list [PyVal.dict []])], 1⟩ := rfl
  have hbad : sizeBad (PyVal.str "x") := Or.inl (by rfl)
  refine ⟨_, h0, ?_, ?_⟩
  · exact (push_commit_count_spec _ _ h0 rfl).1
  · exact (push_commit_count_spec _ _ h0 rfl).2 (PyVal.str "x") [PyVal.dict []]
      rfl hbad rfl

/-- C10: when a Push payload has no size field at all, the default 1 is
used and survives (1 > 0, so the commits list fallback is not taken), so
the commit count is 1 even when a commits list of a different length is
present: the code resolves the default question as default 1. -/
theorem push_size_absent_defaults_to_one (ed : RawEvent) (e : GithubEvent)
    (h : GithubEvent.init ed = Except.ok e) (ht : e.type = PyVal.str "PushEvent")
    (hs : e.payload.lookup "size" = Option.none) :
    e.commit_count = 1 := by
  obtain ⟨-, hcc⟩ := init_ok_inv ed e h
  rw [hcc]
  unfold computeCount
  rw [ht]
  simp [pyEqStr, pushCount, hs, PyVal.truthy, pyIntOf]

/-- C10 witness: size absent with a two element commits list still gives
commit count 1. -/
theorem push_size_absent_defaults_to_one_witness :
    ∃ e, GithubEvent.init
        [("type", PyVal.str "PushEvent"),
         ("payload", PyVal.dict
           [("commits", PyVal.list [PyVal.dict [], PyVal.dict []])])] =
      Except.ok e ∧ e.commit_count = 1 := by
  have h0 : GithubEvent.init
      [("type", PyVal.str "PushEvent"),
       ("payload", PyVal.dict
         [("commits", PyVal.list [PyVal.dict [], PyVal.dict []])])] =
      Except.ok ⟨PyVal.str "PushEvent", PyVal.none, datetimeMin, PyVal.none,
        [("commits", PyVal.list [PyVal.dict [], PyVal.dict []])], 1⟩ := rfl
  refine ⟨_, h0, ?_⟩
  exact push_size_absent_defaults_to_one _ _ h0 rfl rfl

theorem fetch_no_memory (ev0 : List GithubEvent) (file : Option (Int × List RawEvent))
    (now : Int) (remote : RemoteResult) (sf : Bool) :
    fetch ⟨ev0, Option.none, file⟩ now remote sf =
      fetchFile ⟨ev0, Option.none, file⟩ now remote sf := rfl

theorem fetch_memory_fresh (ev0 evs : List GithubEvent) (t now : Int)
    (file : Option (Int × List RawEvent)) (remote : RemoteResult) (sf : Bool)
    (h : now - t < TTL) :
    fetch ⟨ev0, some (evs, t), file⟩ now remote sf =
      ⟨true, ⟨evs, some (evs, t), file⟩, false, Option.none⟩ := by
  unfold fetch
  simp [h]

theorem fetch_memory_stale (ev0 evs : List GithubEvent) (t now : Int)
    (file : Option (Int × List RawEvent)) (remote : RemoteResult) (sf : Bool)
    (h : ¬(now - t < TTL)) :
    fetch ⟨ev0, some (evs, t), file⟩ now remote sf =
      fetchFile ⟨ev0, some (evs, t), file⟩ now remote sf := by
  unfold fetch
  simp [h]

theorem load_fresh (raws : List RawEvent) (evs : List GithubEvent) (t now : Int)
    (h : now - t < TTL) (hnorm : raws.mapM GithubEvent.init = Except.ok evs) :
    load_from_file_cache (some (t, raws)) now = some evs := by
  unfold load_from_file_cache
  dsimp only
  rw [if_pos h, hnorm]

theorem load_stale (raws : List RawEvent) (t now : Int) (h : ¬(now - t < TTL)) :
    load_from_file_cache (some (t, raws)) now = Option.none := by
  unfold load_from_file_cache
  dsimp only
  rw [if_neg h]

theorem fetchFile_hit (ev0 evs : List GithubEvent)
    (mem : Option (List GithubEvent × Int)) (file : Option (Int × List RawEvent))
    (now : Int) (remote : RemoteResult) (sf : Bool)
    (hload : load_from_file_cache file now = some evs) (hne : evs ≠ []) :
    fetchFile ⟨ev0, mem, file⟩ now remote sf =
      ⟨true, ⟨evs, some (evs, now), file⟩, false, Option.none⟩ := by
  unfold fetchFile
  rw [hload]
  cases evs with
  | nil => exact absurd rfl hne
  | cons e es => rfl

theorem fetchFile_miss (ev0 : List GithubEvent)
    (mem : Option (List GithubEvent × Int)) (file : Option (Int × List RawEvent))
    (now : Int) (remote : RemoteResult) (sf : Bool)
    (hload : load_from_file_cache file now = Option.none) :
    fetchFile ⟨ev0, mem, file⟩ now remote sf =
      fetchRemote ⟨ev0, mem, file⟩ now remote sf := by
  unfold fetchFile
  rw [hload]

theorem fetch_empty_result (st : ReqState) (now : Int) (sf : Bool)
    (hm : st.memory = Option.none) (hf : st.file = Option.none) :
    fetch st now (RemoteResult.success []) sf =
      ⟨false, st, true, some Msg.noActivity⟩ := by
  unfold fetch fetchFile load_from_file_cache
  rw [hm, hf]
  rfl

/-- C2 counterexample: on a successful fetch of the empty list the code
prints the no activity message and returns False WITHOUT writing either
cache tier, so a second read one second later invokes the remote fetch
again — the empty record set is not stored as a Fresh entry. -/
theorem empty_fetch_caches_nothing :
    (fetch ⟨[], Option.none, Option.none⟩ 1000000000
        (RemoteResult.success []) false).ok = false ∧
    (fetch ⟨[], Option.none, Option.none⟩ 1000000000
        (RemoteResult.success []) false).st.memory = Option.none ∧
    (fetch ⟨[], Option.none, Option.none⟩ 1000000000
        (RemoteResult.success []) false).st.file = Option.none ∧
    (fetch ((fetch ⟨[], Option.none, Option.none⟩ 1000000000
        (RemoteResult.success []) false).st) 1000000001
        (RemoteResult.success []) false).remoteCalled = true :=
  ⟨rfl, rfl, rfl, rfl⟩

/-- C2 amended: an empty successful fetch yields the distinct NoActivity
message (not one of the error messages) but the call returns failure,
nothing is cached in either tier (the state is unchanged), and a
subsequent read within TTL invokes the remote fetch again. -/
theorem empty_fetch_reports_no_activity (st : ReqState) (now : Int) (sf : Bool)
    (hm : st.memory = Option.none) (hf : st.file = Option.none) :
    (fetch st now (RemoteResult.success []) sf).ok = false ∧
    (fetch st now (RemoteResult.success []) sf).message = some Msg.noActivity ∧
    (fetch st now (RemoteResult.success []) sf).remoteCalled = true ∧
    (fetch st now (RemoteResult.success []) sf).st = st ∧
    (fetch ((fetch st now (RemoteResult.success []) sf).st) (now + 1)
      (RemoteResult.success []) sf).remoteCalled = true := by
  have h1 := fetch_empty_result st now sf hm hf
  have h2 := fetch_empty_result st (now + 1) sf hm hf
  rw [h1]
  exact ⟨rfl, rfl, rfl, rfl, by rw [h2]⟩

/-- C2 amended witness at a concrete empty state. -/
theorem empty_fetch_reports_no_activity_witness :
    (fetch ⟨[], Option.none, Option.none⟩ 5
        (RemoteResult.success []) false).message = some Msg.noActivity :=
  (empty_fetch_reports_no_activity ⟨[], Option.none, Option.none⟩ 5 false rfl rfl).2.1

/-- C7: in both tiers an entry is Fresh exactly when now minus its
recorded fetch instant is strictly below TTL: the memory tier serves
without calling the remote exactly then, the durable tier load succeeds
exactly then, and in particular an entry stamped now - TTL + eps is
served while one stamped now - TTL - eps is not (eps > 0). -/
theorem ttl_boundary_spec (evs : List GithubEvent) (raws : List RawEvent)
    (t now eps : Int) (remote : RemoteResult) (sf : Bool) (heps : 0 < eps)
    (hnorm : raws.mapM GithubEvent.init = Except.ok evs) (hne : evs ≠ []) :
    ((fetch ⟨[], some (evs, t), Option.none⟩ now remote sf).remoteCalled = false ↔
      now - t < TTL) ∧
    (load_from_file_cache (some (t, raws)) now = some evs ↔ now - t < TTL) ∧
    (fetch ⟨[], some (evs, now - TTL + eps), Option.none⟩ now remote sf).remoteCalled
      = false ∧
    (fetch ⟨[], some (evs, now - TTL - eps), Option.none⟩ now remote sf).remoteCalled
      = true ∧
    (fetch ⟨[], Option.none, some (now - TTL + eps, raws)⟩ now remote sf).remoteCalled
      = false ∧
    (fetch ⟨[], Option.none, some (now - TTL - eps, raws)⟩ now remote sf).remoteCalled
      = true := by
  refine ⟨?_, ?_, ?_, ?_, ?_, ?_⟩
  · by_cases h : now - t < TTL
    · rw [fetch_memory_fresh [] evs t now Option.none remote sf h]
      simp [h]
    · rw [fetch_memory_stale [] evs t now Option.none remote sf h,
        fetchFile_miss [] (some (evs, t)) Option.none now remote sf rfl]
      simp [h, fetchRemote_called]
  · by_cases h : now - t < TTL
    · rw [load_fresh raws evs t now h hnorm]
      simp [h]
    · rw [load_stale raws t now h]
      simp [h]
  · have h : now - (now - TTL + eps) < TTL := by omega
    rw [fetch_memory_fresh [] evs _ now Option.none remote sf h]
  · have h : ¬(now - (now - TTL - eps) < TTL) := by omega
    rw [fetch_memory_stale [] evs _ now Option.none remote sf h,
      fetchFile_miss [] (some (evs, now - TTL - eps)) Option.none now remote sf rfl]
    exact fetchRemote_called _ now remote sf
  · have h : now - (now - TTL + eps) < TTL := by omega
    rw [fetch_no_memory [] (some (now - TTL + eps, raws)) now remote sf,
      fetchFile_hit [] evs Option.none (some (now - TTL + eps, raws)) now remote sf
        (load_fresh raws evs _ now h hnorm) hne]
  · have h : ¬(now - (now - TTL - eps) < TTL) := by omega
    rw [fetch_no_memory [] (some (now - TTL - eps, raws)) now remote sf,
      fetchFile_miss [] Option.none (some (now - TTL - eps, raws)) now remote sf
        (load_stale raws _ now h)]
    exact fetchRemote_called _ now remote sf

/-- C7 witness: with eps = 1 second, a memory entry stamped
now - TTL + 1 is served without the remote, one stamped now - TTL - 1 is
not. -/
theorem ttl_boundary_spec_witness :
    (fetch ⟨[], some ([evPushW], 1000 - TTL + 1), Option.none⟩ 1000
        RemoteResult.transportError false).remoteCalled = false ∧
    (fetch ⟨[], some ([evPushW], 1000 - TTL - 1), Option.none⟩ 1000
        RemoteResult.transportError false).remoteCalled = true := by
  have h0 : ([rawPushW] : List RawEvent).mapM GithubEvent.init =
      Except.ok [evPushW] := rfl
  have h := ttl_boundary_spec [evPushW] [rawPushW] 42 1000 1
    RemoteResult.transportError false (by norm_num) h0 (by simp)
  exact ⟨h.2.2.1, h.2.2.2.1⟩

/-- C9: a read satisfied from the durable tier promotes the records into
the memory tier stamped with the promotion instant (now), not with the
durable entry instant; consequently in a concrete execution a record set
originally fetched at instant 0 with TTL 600 is still served from the
memory tier, without any remote call, at instant 1198 = 2 TTL - 2. -/
theorem promotion_restamps_fetch_time :
    (∀ (st : ReqState) (now : Int) (remote : RemoteResult) (sf : Bool)
      (evs : List GithubEvent),
      st.memory = Option.none → load_from_file_cache st.file now = some evs →
      evs ≠ [] →
      (fetch st now remote sf).st.memory = some (evs, now) ∧
      (fetch st now remote sf).remoteCalled = false) ∧
    ((fetch ⟨[], Option.none, some (0, [rawPushW])⟩ 599
        RemoteResult.transportError false).remoteCalled = false ∧
     (fetch ⟨[], Option.none, some (0, [rawPushW])⟩ 599
        RemoteResult.transportError false).st.memory = some ([evPushW], 599) ∧
     (fetch ((fetch ⟨[], Option.none, some (0, [rawPushW])⟩ 599
        RemoteResult.transportError false).st) 1198
        RemoteResult.transportError false).remoteCalled = false ∧
     (fetch ((fetch ⟨[], Option.none, some (0, [rawPushW])⟩ 599
        RemoteResult.transportError false).st) 1198
        RemoteResult.transportError false).ok = true ∧
     (fetch ((fetch ⟨[], Option.none, some (0, [rawPushW])⟩ 599
        RemoteResult.transportError false).st) 1198
        RemoteResult.transportError false).st.events = [evPushW] ∧
     (1198 : Int) = 2 * TTL - 2) := by
  constructor
  · intro st now remote sf evs hm hload hne
    rcases st with ⟨ev0, mem, file⟩
    simp only at hm
    subst hm
    rw [fetch_no_memory ev0 file now remote sf,
      fetchFile_hit ev0 evs Option.none file now remote sf hload hne]
    exact ⟨rfl, rfl⟩
  · refine ⟨rfl, rfl, rfl, rfl, rfl, by norm_num [TTL]⟩

/-- C9 witness: a durable entry recorded at instant 7 read at instant 100
is promoted with memory stamp 100. -/
theorem promotion_restamps_fetch_time_witness :
    (fetch ⟨[], Option.none, some (7, [rawPushW])⟩ 100
        RemoteResult.transportError false).st.memory = some ([evPushW], 100) := by
  have hload : load_from_file_cache (some (7, [rawPushW])) 100 = some [evPushW] := rfl
  exact (promotion_restamps_fetch_time.1 ⟨[], Option.none, some (7, [rawPushW])⟩ 100
    RemoteResult.transportError false [evPushW] rfl hload (by simp)).1

/-- C4 counterexample: sorting by repository is not total.  With one
record whose repository name is absent (None) next to one with a string
name, the key comparison None against str raises TypeError and sorted
fails, so no ordered sequence is produced. -/
theorem sort_by_repository_raises_on_missing_name :
    sortByRepository
      [⟨PyVal.str "PushEvent", PyVal.none, datetimeMin, PyVal.none, [], 0⟩,
       ⟨PyVal.str "PushEvent", PyVal.str "a/b", datetimeMin, PyVal.none, [], 0⟩] =
      Except.error () := rfl

/-- C4 amended: for every list in which each repository name is present
(a string), sorting by repository succeeds deterministically, returns a
permutation of the input, and is ascending by repository name; when an
absent name is compared against another key the sort raises instead. -/
theorem sort_by_repository_total_on_string_names (l : List GithubEvent)
    (h : ∀ e ∈ l, ∃ s, e.repo_name = PyVal.str s) :
    ∃ r, sortByRepository l = Except.ok r ∧ r.Perm l ∧
      r.Pairwise (fun a b => ∀ s t, a.repo_name = PyVal.str s →
        b.repo_name = PyVal.str t → s ≤ t) := by
  obtain ⟨r, hr⟩ := sortGo_repo_total l [] h (by simp)
  refine ⟨r, hr, stableSortE_perm repoLt l r hr, ?_⟩
  have hsorted : r.Pairwise (fun a b => repoLt b a ≠ Except.ok true) :=
    stableSortE_sorted repoLt
      (fun a b hab => pyLt_asymm a.repo_name b.repo_name hab)
      (fun a b c h1 h2 => pyLt_trans a.repo_name b.repo_name c.repo_name h1 h2)
      l r hr
  refine hsorted.imp ?_
  intro a b hab s t hs ht
  unfold repoLt at hab
  rw [hs, ht] at hab
  have hv : pyLt (PyVal.str t) (PyVal.str s) = Except.ok (decide (t < s)) := rfl
  rw [hv] at hab
  refine le_of_not_lt ?_
  intro hts
  exact hab (by rw [decide_eq_true hts])

/-- C4 amended witness: two string named records sort ascending. -/
theorem sort_by_repository_total_on_string_names_witness :
    ∃ r, sortByRepository
        [⟨PyVal.str "PushEvent", PyVal.str "bb", datetimeMin, PyVal.none, [], 0⟩,
         ⟨PyVal.str "PushEvent", PyVal.str "aa", datetimeMin, PyVal.none, [], 0⟩] =
      Except.ok r ∧
      r.Perm
        [⟨PyVal.str "PushEvent", PyVal.str "bb", datetimeMin, PyVal.none, [], 0⟩,
         ⟨PyVal.str "PushEvent", PyVal.str "aa", datetimeMin, PyVal.none, [], 0⟩] ∧
      r.Pairwise (fun a b => ∀ s t, a.repo_name = PyVal.str s →
        b.repo_name = PyVal.str t → s ≤ t) := by
  refine sort_by_repository_total_on_string_names _ ?_
  intro e he
  rcases List.mem_cons.mp he with rfl | he2
  · exact ⟨"bb", rfl⟩
  · rcases List.mem_cons.mp he2 with rfl | he3
    · exact ⟨"aa", rfl⟩
    · cases he3

/-- C8: every sort variant is stable.  Stability is expressed through
key filters: for any key value the subsequence of records carrying that
key is unchanged by the sort, which for any two records with equal sort
keys pins their relative output order to their input order.  Date keys
are integers and are filtered by integer equality; type and repository
keys are Python values and are filtered through the fuel indexed value
equality pyBeqF (sound at every fuel, complete at fuel at least the size
of the key), quantified over both the fuel and the key. -/
theorem sort_variants_stable :
    (∀ (l r : List GithubEvent) (q : Int), sortByDate l = Except.ok r →
      r.filter (fun e => decide (e.created_at = q)) =
        l.filter (fun e => decide (e.created_at = q))) ∧
    (∀ (l r : List GithubEvent) (n : Nat) (q : PyVal), sortByType l = Except.ok r →
      r.filter (fun e => pyBeqF n (typeKey e) q) =
        l.filter (fun e => pyBeqF n (typeKey e) q)) ∧
    (∀ (l r : List GithubEvent) (n : Nat) (q : PyVal),
      sortByRepository l = Except.ok r →
      r.filter (fun e => pyBeqF n e.repo_name q) =
        l.filter (fun e => pyBeqF n e.repo_name q)) := by
  refine ⟨?_, ?_, ?_⟩
  · intro l r q h
    refine stableSortE_filter dateLt (fun e => decide (e.created_at = q))
      ?_ ?_ ?_ ?_ l r h
    · intro a b hab
      simp [dateLt] at hab ⊢
      omega
    · intro a b c h1 h2
      simp [dateLt] at h1 h2 ⊢
      omega
    · intro a b ha hb
      simp at ha hb
      simp [dateLt, ha, hb]
    · intro a b c ha hb
      simp at ha hb
      simp [dateLt, ha, hb]
  · intro l r n q h
    refine stableSortE_filter typeLt (fun e => pyBeqF n (typeKey e) q)
      ?_ ?_ ?_ ?_ l r h
    · exact fun a b hab => pyLt_asymm (typeKey a) (typeKey b) hab
    · exact fun a b c h1 h2 => pyLt_trans (typeKey a) (typeKey b) (typeKey c) h1 h2
    · intro a b ha hb
      unfold typeLt
      rw [pyBeqF_sound n (typeKey a) q ha, pyBeqF_sound n (typeKey b) q hb]
      exact pyLt_irrefl q
    · intro a b c ha hb
      unfold typeLt
      rw [pyBeqF_sound n (typeKey a) q ha, pyBeqF_sound n (typeKey b) q hb]
  · intro l r n q h
    refine stableSortE_filter repoLt (fun e => pyBeqF n e.repo_name q)
      ?_ ?_ ?_ ?_ l r h
    · exact fun a b hab => pyLt_asymm a.repo_name b.repo_name hab
    · exact fun a b c h1 h2 => pyLt_trans a.repo_name b.repo_name c.repo_name h1 h2
    · intro a b ha hb
      unfold repoLt
      rw [pyBeqF_sound n a.repo_name q ha, pyBeqF_sound n b.repo_name q hb]
      exact pyLt_irrefl q
    · intro a b c ha hb
      unfold repoLt
      rw [pyBeqF_sound n a.repo_name q ha, pyBeqF_sound n b.repo_name q hb]

/-- C8 witness: two records with the equal date key 5 keep their input
order through sortByDate, so the key filter is preserved. -/
theorem sort_variants_stable_witness :
    (List.filter (fun e => decide (e.created_at = (5 : Int)))
      [(⟨PyVal.str "A", PyVal.none, 5, PyVal.none, [], 0⟩ : GithubEvent),
       ⟨PyVal.str "B", PyVal.none, 5, PyVal.none, [], 0⟩]) =
    List.filter (fun e => decide (e.created_at = (5 : Int)))
      [(⟨PyVal.str "A", PyVal.none, 5, PyVal.none, [], 0⟩ : GithubEvent),
       ⟨PyVal.str "B", PyVal.none, 5, PyVal.none, [], 0⟩] := by
  have h0 : sortByDate
      [(⟨PyVal.str "A", PyVal.none, 5, PyVal.none, [], 0⟩ : GithubEvent),
       ⟨PyVal.str "B", PyVal.none, 5, PyVal.none, [], 0⟩] =
      Except.ok
        [(⟨PyVal.str "A", PyVal.none, 5, PyVal.none, [], 0⟩ : GithubEvent),
         ⟨PyVal.str "B", PyVal.none, 5, PyVal.none, [], 0⟩] := rfl
  exact sort_variants_stable.1 _ _ 5 h0

example :
    GithubEvent.init [("type", PyVal.str "PushEvent")] =
      Except.ok ⟨PyVal.str "PushEvent", PyVal.none, datetimeMin, PyVal.none, [], 1⟩ := rfl

example :
    GithubEvent.init
        [("type", PyVal.str "PushEvent"),
         ("payload", PyVal.dict [("size", PyVal.int 3)]),
         ("created_at", PyVal.str "2024-01-01T00:00:00Z")] =
      Except.ok ⟨PyVal.str "PushEvent", PyVal.none, encodeDT 2024 1 1 0 0 0,
        PyVal.none, [("size", PyVal.int 3)], 3⟩ := rfl

end GithubActivity
